import Mathlib

/-!
Verification development for the multi-LLM API toolkit
(source file: src/llm-api-calls.js).

JavaScript strings are embedded as lists of characters (List Char).
Fields that JavaScript may leave undefined are embedded as Option values
(none = the field is absent / undefined).  Where JavaScript coerces an
undefined value to the string "undefined" (string concatenation), the
embedding does so explicitly via jsToString.
-/

/-- Embedding of a JavaScript string. -/
abbrev JStr := List Char

/-- Truthiness of an optional string field: undefined and the empty string
are falsy, every other string is truthy. -/
def truthy : Option JStr → Bool
  | some s => !s.isEmpty
  | none => false

/-- JavaScript string coercion of a possibly-undefined string value, as
performed by the + operator: undefined coerces to the string undefined. -/
def jsToString : Option JStr → JStr
  | some s => s
  | none => ("undefined").data

/-- The opening reasoning tag matched by the regex at line 206 of
src/llm-api-calls.js. -/
def thinkOpenTag : JStr := ("<think>").data

/-- The closing reasoning tag matched by the regex at line 207 of
src/llm-api-calls.js. -/
def thinkCloseTag : JStr := ("</think>").data

/-- Scanner for counting pattern occurrences.  The first numeric argument
is the number of characters still to skip past a match that was already
counted, so that matches are counted left to right without overlap,
exactly as a global regex match does. -/
def countOccsGo (pat : JStr) : Nat → JStr → Nat
  | _, [] => 0
  | skip+1, _ :: cs => countOccsGo pat skip cs
  | 0, c :: cs =>
    if pat.isPrefixOf (c :: cs) then 1 + countOccsGo pat (pat.length - 1) cs
    else countOccsGo pat 0 cs

/-- Number of occurrences of a literal pattern in a string, counted left to
right without overlap: the value of (s.match(pattern-as-global-regex) or
the empty array).length in the source. -/
def countOccs (pat : JStr) (s : JStr) : Nat := countOccsGo pat 0 s

/-- The delta object of the first choice of a vendor stream chunk
(chunk.choices with index 0, field delta): each field is a string or
absent. -/
structure Delta where
  content : Option JStr
  reasoning_content : Option JStr
deriving DecidableEq

/-- A vendor stream chunk as consumed by standardizeStream: choices = some d
embeds a chunk whose choices array is non-empty with first delta d (the
delta object itself is assumed present, as the source dereferences it
unconditionally at line 203); choices = none embeds a chunk with no or
empty choices.  The text field is the Gemini-format payload. -/
structure Chunk where
  choices : Option Delta
  text : Option JStr
deriving DecidableEq

/-- Canonical normalized event: the two yield shapes of standardizeStream.
The reasoning payload is optional because the source can yield the literal
field choice.delta.content even when that field is undefined. -/
inductive Ev
  | contentDelta (text : JStr)
  | reasoningDelta (rc : Option JStr)
deriving DecidableEq

/-- Line 203 of the source: response + content or the empty-string fallback
chain.  Operator precedence makes this (response + content) when that
concatenation is non-empty, and otherwise the coercion of
reasoning_content when that is non-empty, and otherwise the empty
string. -/
def textsofar (response : JStr) (d : Delta) : JStr :=
  let a := response ++ jsToString d.content
  if a.isEmpty then
    let b := jsToString d.reasoning_content
    if b.isEmpty then [] else b
  else a

/-- Lines 206 to 208 of the source: the chunk is inside a think block when
the accumulated text contains more opening than closing tags. -/
def isInThink (response : JStr) (d : Delta) : Bool :=
  decide (countOccs thinkCloseTag (textsofar response d)
    < countOccs thinkOpenTag (textsofar response d))

/-- Lines 210 to 211 of the source: the closing-tag count of the
accumulated buffer agrees with that of the buffer extended by the current
chunk. -/
def notEdgeCase (response : JStr) (d : Delta) : Bool :=
  countOccs thinkCloseTag response == countOccs thinkCloseTag (textsofar response d)

/-- One iteration of the chunk loop of standardizeStream (lines 201 to 243
of the source): given the accumulated response buffer and one chunk, the
new buffer and the events yielded for that chunk. -/
def stepChunk (response : JStr) (ch : Chunk) : JStr × List Ev :=
  match ch.choices with
  | some d =>
    if truthy d.content && !isInThink response d && notEdgeCase response d then
      (response ++ jsToString d.content, [Ev.contentDelta (jsToString d.content)])
    else if truthy d.reasoning_content || isInThink response d || !notEdgeCase response d then
      if !truthy d.reasoning_content then
        (response ++ jsToString d.content, [Ev.reasoningDelta d.content])
      else
        (response ++ jsToString d.reasoning_content, [Ev.reasoningDelta d.reasoning_content])
    else (response, [])
  | none =>
    match ch.text with
    | some t => if !t.isEmpty then (response, [Ev.contentDelta t]) else (response, [])
    | none => (response, [])

/-- The chunk loop of standardizeStream over a whole chunk sequence:
final accumulated buffer and concatenated event sequence. -/
def runStream (response : JStr) : List Chunk → JStr × List Ev
  | [] => (response, [])
  | c :: cs =>
    let st := stepChunk response c
    let rest := runStream st.1 cs
    (rest.1, st.2 ++ rest.2)

/-- standardizeStream (lines 195 to 253 of the source) as a function from
the sequence of vendor chunks to the sequence of canonical events, the
response accumulator starting empty. -/
def standardizeStream (chunks : List Chunk) : List Ev := (runStream [] chunks).2

/-- Text that one normalization step appends to the response accumulator
for each event it yields: the content text for a content delta, and the
string coercion of the reasoning payload for a reasoning event (the
source appends the raw field, so an undefined payload appends the string
undefined). -/
def eventAppendedText : Ev → JStr
  | Ev.contentDelta t => t
  | Ev.reasoningDelta rc => jsToString rc

/-- C3: feeding the four content-only fragments of the tag-balance example
through a fresh normalizer yields a ReasoningDelta for each of the first
three fragments and a ContentDelta carrying visible for the fourth. -/
theorem tagBalanceExampleSequence :
    standardizeStream
      [⟨some ⟨some (("<think>").data), none⟩, none⟩,
       ⟨some ⟨some (("secret").data), none⟩, none⟩,
       ⟨some ⟨some (("</think>").data), none⟩, none⟩,
       ⟨some ⟨some (("visible").data), none⟩, none⟩] =
      [Ev.reasoningDelta (some (("<think>").data)),
       Ev.reasoningDelta (some (("secret").data)),
       Ev.reasoningDelta (some (("</think>").data)),
       Ev.contentDelta (("visible").data)] := by decide

/-- C1 counterexample: a single chunk carrying both a non-empty content
field and a non-empty reasoning_content field produces only a
ContentDelta; no ReasoningDelta carrying the reasoning text is emitted. -/
theorem bothFieldsCounterexample :
    standardizeStream [⟨some ⟨some (("a").data), some (("r").data)⟩, none⟩] =
      [Ev.contentDelta (("a").data)] ∧
    Ev.reasoningDelta (some (("r").data)) ∉
      standardizeStream [⟨some ⟨some (("a").data), some (("r").data)⟩, none⟩] := by
  decide

/-- C1 amended: a chunk carrying both a truthy content field and a truthy
reasoning_content field yields exactly one event, never two: a
ContentDelta with the content text when the tag-balance state classifies
the fragment visible, and otherwise a single ReasoningDelta with the
reasoning text. -/
theorem bothFieldsEmitExactlyOne (resp : JStr) (d : Delta) (tx : Option JStr)
    (hc : truthy d.content = true) (hr : truthy d.reasoning_content = true) :
    (stepChunk resp ⟨some d, tx⟩).2 =
      if !isInThink resp d && notEdgeCase resp d then
        [Ev.contentDelta (jsToString d.content)]
      else
        [Ev.reasoningDelta d.reasoning_content] := by
  simp only [stepChunk, hc, hr, Bool.true_and, Bool.not_true, Bool.false_and, Bool.true_or]
  cases h1 : isInThink resp d <;> cases h2 : notEdgeCase resp d <;> simp

/-- C1 witness: the amended statement at a concrete chunk with both
fields populated and a fresh buffer. -/
theorem bothFieldsEmitExactlyOneWitness :
    (stepChunk [] ⟨some ⟨some (("a").data), some (("r").data)⟩, none⟩).2 =
      [Ev.contentDelta (("a").data)] := by
  have h := bothFieldsEmitExactlyOne [] ⟨some (("a").data), some (("r").data)⟩ none
    (by decide) (by decide)
  rw [h]; decide

/-- C2 counterexample: a fragment classified and emitted as reasoning is
appended to the response accumulator: after the single chunk carrying
the opening tag, the accumulator holds that tag even though the chunk
was emitted as a ReasoningDelta. -/
theorem reasoningAppendedCounterexample :
    (runStream [] [⟨some ⟨some (("<think>").data), none⟩, none⟩]).2 =
      [Ev.reasoningDelta (some (("<think>").data))] ∧
    (runStream [] [⟨some ⟨some (("<think>").data), none⟩, none⟩]).1 =
      ("<think>").data := by
  decide

/-- C2 amended: for every chunk in choices form, the response accumulator
is extended by exactly the appended text of every event the step yields,
whether the event is a ContentDelta or a ReasoningDelta; a step yielding
no event leaves the accumulator unchanged. -/
theorem bufferGrowsByEmittedText (resp : JStr) (d : Delta) (tx : Option JStr) :
    (stepChunk resp ⟨some d, tx⟩).1 =
      resp ++ ((stepChunk resp ⟨some d, tx⟩).2.map eventAppendedText).flatten := by
  simp only [stepChunk]
  by_cases h1 : (truthy d.content && !isInThink resp d && notEdgeCase resp d) = true
  · simp [h1, eventAppendedText]
  · simp only [Bool.not_eq_true] at h1
    simp only [h1, if_false]
    by_cases h2 :
        (truthy d.reasoning_content || isInThink resp d || !notEdgeCase resp d) = true
    · cases h3 : truthy d.reasoning_content <;>
        by_cases h4 : (isInThink resp d = true ∨ notEdgeCase resp d = false) <;>
        simp [h2, h3, h4, eventAppendedText]
    · simp only [Bool.not_eq_true] at h2
      simp [h2]

/-- C5 counterexample: a chunk carrying only a content field whose text is
the opening tag is not normalized to a ContentDelta with that text; it is
emitted as a ReasoningDelta instead. -/
theorem taggedContentCounterexample :
    standardizeStream [⟨some ⟨some (("<think>").data), none⟩, none⟩] ≠
      [Ev.contentDelta (("<think>").data)] ∧
    standardizeStream [⟨some ⟨some (("<think>").data), none⟩, none⟩] =
      [Ev.reasoningDelta (some (("<think>").data))] := by
  decide

/-- C5 amended: a chunk carrying a non-empty content field and no
reasoning field yields exactly one event carrying that exact text: a
ContentDelta when the tag-balance heuristic classifies the fragment
visible, and a ReasoningDelta otherwise; in both cases the fragment is
appended to the accumulator. -/
theorem contentOnlyClassification (resp s : JStr) (tx : Option JStr) (hs : s ≠ []) :
    stepChunk resp ⟨some ⟨some s, none⟩, tx⟩ =
      if !isInThink resp ⟨some s, none⟩ && notEdgeCase resp ⟨some s, none⟩ then
        (resp ++ s, [Ev.contentDelta s])
      else
        (resp ++ s, [Ev.reasoningDelta (some s)]) := by
  have hst : truthy (some s) = true := by
    simp [truthy, List.isEmpty_iff, hs]
  simp only [stepChunk, hst, jsToString, Bool.true_and, truthy, List.isEmpty_nil]
  cases h1 : isInThink resp ⟨some s, none⟩ <;>
    cases h2 : notEdgeCase resp ⟨some s, none⟩ <;> simp [hs]

/-- The string the JavaScript + operator produces from an undefined
field. -/
def undefinedStr : JStr := ("undefined").data

/-- A scan that starts with at least as many characters to skip as the
string holds counts nothing. -/
theorem countOccsGo_of_length_le (pat : JStr) :
    ∀ (l : JStr) (skip : Nat), l.length ≤ skip → countOccsGo pat skip l = 0 := by
  intro l
  induction l with
  | nil => intro skip _; cases skip <;> rfl
  | cons c cs ih =>
    intro skip h
    match skip with
    | 0 => simp at h
    | k+1 => exact ih k (Nat.le_of_succ_le_succ (by simpa using h))

/-- Being a prefix of an extended string is the same as being a prefix of
the original when the candidate is no longer than the original. -/
theorem prefix_append_iff_of_le (p x y : JStr) (h : p.length ≤ x.length) :
    p <+: (x ++ y) ↔ p <+: x := by
  constructor
  · intro hp
    rw [List.prefix_iff_eq_take] at hp ⊢
    rw [List.take_append_eq_append_take, Nat.sub_eq_zero_of_le h, List.take_zero,
      List.append_nil] at hp
    exact hp
  · intro hp; exact hp.trans (List.prefix_append x y)

/-- A pattern that is a prefix of an extended string but longer than the
original part must continue into the extension with one of its proper
suffixes. -/
theorem prefix_drop_of_append_short (p x y : JStr) (hlt : x.length < p.length)
    (hp : p <+: (x ++ y)) : (p.drop x.length) <+: y := by
  obtain ⟨t, ht⟩ := hp
  refine ⟨t, ?_⟩
  have h1 : (p ++ t).drop x.length = p.drop x.length ++ t := by
    rw [List.drop_append_eq_append_drop, Nat.sub_eq_zero_of_le (Nat.le_of_lt hlt),
      List.drop_zero]
  rw [ht, List.drop_left] at h1
  exact h1.symm

/-- Appending a string that holds no occurrence of the pattern and admits
no occurrence spanning the boundary leaves every scan count unchanged. -/
theorem countOccsGo_append_of_no_span (pat u : JStr)
    (h1 : ∀ skip, countOccsGo pat skip u = 0)
    (h2 : ∀ k, k < pat.length → 0 < k → (pat.drop k).isPrefixOf u = false) :
    ∀ (s : JStr) (skip : Nat), countOccsGo pat skip (s ++ u) = countOccsGo pat skip s := by
  intro s
  induction s with
  | nil =>
    intro skip
    rw [List.nil_append, h1 skip, countOccsGo_of_length_le pat [] skip (by simp)]
  | cons c cs ih =>
    intro skip
    match skip with
    | k+1 => simpa only [List.cons_append, countOccsGo] using ih k
    | 0 =>
      have hcons : (c :: cs) ++ u = c :: (cs ++ u) := List.cons_append c cs u
      by_cases hlen : pat.length ≤ (c :: cs).length
      · have hpre : pat.isPrefixOf (c :: (cs ++ u)) = pat.isPrefixOf (c :: cs) := by
          rw [← hcons]
          by_cases hx : pat.isPrefixOf (c :: cs) = true
          · rw [hx, List.isPrefixOf_iff_prefix.mpr
              ((prefix_append_iff_of_le pat (c :: cs) u hlen).mpr
                (List.isPrefixOf_iff_prefix.mp hx))]
          · simp only [Bool.not_eq_true] at hx
            have hx2 : pat.isPrefixOf ((c :: cs) ++ u) = false := by
              cases hv : pat.isPrefixOf ((c :: cs) ++ u)
              · rfl
              · exact absurd (List.isPrefixOf_iff_prefix.mpr
                  ((prefix_append_iff_of_le pat (c :: cs) u hlen).mp
                    (List.isPrefixOf_iff_prefix.mp hv))) (by simp [hx])
            rw [hx, hx2]
        simp only [List.cons_append, countOccsGo, List.append_eq]
        by_cases hx : pat.isPrefixOf (c :: (cs ++ u)) = true
        · rw [if_pos hx, if_pos (hpre.symm.trans hx), ih]
        · rw [if_neg hx, if_neg fun h => hx (hpre.trans h), ih]
      · push_neg at hlen
        have hx1 : ¬ pat.isPrefixOf (c :: cs) = true := by
          intro hxx
          exact absurd (List.isPrefixOf_iff_prefix.mp hxx).length_le (by omega)
        have hx2 : ¬ pat.isPrefixOf (c :: (cs ++ u)) = true := by
          rw [← hcons]
          intro hxx
          have hspan := prefix_drop_of_append_short pat (c :: cs) u hlen
            (List.isPrefixOf_iff_prefix.mp hxx)
          have hcontra := h2 (c :: cs).length hlen (by simp)
          rw [List.isPrefixOf_iff_prefix.mpr hspan] at hcontra
          exact Bool.true_eq_false.mp hcontra
        simp only [List.cons_append, countOccsGo, List.append_eq]
        rw [if_neg hx2, if_neg hx1, ih]

/-- Appending the coercion string undefined to any buffer changes neither
the opening-tag count nor the closing-tag count: no tag occurs in it and
no tag can span the boundary into it. -/
theorem countOccs_append_undefined (pat : JStr)
    (hp : pat = thinkOpenTag ∨ pat = thinkCloseTag) (s : JStr) :
    countOccs pat (s ++ undefinedStr) = countOccs pat s := by
  have hlen : undefinedStr.length = 9 := by decide
  rcases hp with h | h <;> subst h <;>
  · refine countOccsGo_append_of_no_span _ _ (fun skip => ?_) (by decide) s 0
    by_cases hs : skip < 9
    · interval_cases skip <;> decide
    · exact countOccsGo_of_length_le _ _ _ (by omega)

/-- C4 counterexample: while inside an open think block, a chunk whose
delta carries neither field emits a canonical event (a ReasoningDelta
with undefined payload) instead of being silently skipped; the same chunk
from a fresh state emits nothing. -/
theorem emptyDeltaInThinkCounterexample :
    standardizeStream
      [⟨some ⟨some (("<think>").data), none⟩, none⟩, ⟨some ⟨none, none⟩, none⟩] =
      [Ev.reasoningDelta (some (("<think>").data)), Ev.reasoningDelta none] ∧
    standardizeStream [⟨some ⟨none, none⟩, none⟩] = [] := by
  decide

/-- C4 amended: a chunk whose delta carries neither field emits no event
and leaves the buffer unchanged exactly when the buffer's closing-tag
count is not exceeded by its opening-tag count; inside an open think
block it emits one ReasoningDelta with undefined payload and appends the
coercion string undefined to the buffer.  No error is raised in either
case. -/
theorem emptyDeltaCharacterization (resp : JStr) (tx : Option JStr) :
    stepChunk resp ⟨some ⟨none, none⟩, tx⟩ =
      if countOccs thinkCloseTag resp < countOccs thinkOpenTag resp then
        (resp ++ ("undefined").data, [Ev.reasoningDelta none])
      else (resp, []) := by
  have htsf : textsofar resp ⟨none, none⟩ = resp ++ undefinedStr := by
    simp [textsofar, jsToString, undefinedStr, List.isEmpty_iff]
  have hopen := countOccs_append_undefined thinkOpenTag (Or.inl rfl) resp
  have hclose := countOccs_append_undefined thinkCloseTag (Or.inr rfl) resp
  have hin : isInThink resp ⟨none, none⟩ =
      decide (countOccs thinkCloseTag resp < countOccs thinkOpenTag resp) := by
    rw [isInThink, htsf, hopen, hclose]
  have hedge : notEdgeCase resp ⟨none, none⟩ = true := by
    rw [notEdgeCase, htsf, hclose]
    simp
  by_cases hlt : countOccs thinkCloseTag resp < countOccs thinkOpenTag resp <;>
    simp [stepChunk, truthy, hin, hedge, hlt, jsToString, undefinedStr]

/-- C5 witness: the amended statement at a concrete tagless fragment over
a fresh buffer, where the classification is visible. -/
theorem contentOnlyClassificationWitness :
    stepChunk [] ⟨some ⟨some (("v").data), none⟩, none⟩ =
      (("v").data, [Ev.contentDelta (("v").data)]) := by
  have h := contentOnlyClassification [] (("v").data) none (by decide)
  rw [h]; decide

/-- The whitespace characters removed by the trim call at line 271 of the
source (restricted to the ASCII whitespace of the streams concerned). -/
def isJsSpace (c : Char) : Bool :=
  c = ' ' || c = '\t' || c = '\n' || c = '\r'

/-- line.trim() at line 271 of the source. -/
def jsTrim (s : JStr) : JStr :=
  ((s.dropWhile isJsSpace).reverse.dropWhile isJsSpace).reverse

/-- The data line marker the parser looks for at line 274 of the source. -/
def dataMarker : JStr := ("data: ").data

/-- The end-of-stream sentinel at line 276 of the source. -/
def doneSentinel : JStr := ("[DONE]").data

/-- The inner loop of asyncIteratorFromReader (lines 268 to 285 of the
source): split the buffer at every newline, returning the complete lines
in order and the unterminated remainder. -/
def splitCL : JStr → List JStr × JStr
  | [] => ([], [])
  | c :: cs =>
    let r := splitCL cs
    if c = '\n' then ([] :: r.1, r.2)
    else
      match r.1 with
      | [] => ([], c :: r.2)
      | l :: ls => ((c :: l) :: ls, r.2)

/-- Per-line handling of asyncIteratorFromReader (lines 274 to 284 of the
source) over a batch of complete lines: the parsed values yielded, and
whether the DONE sentinel terminated the generator inside the batch.
JSON.parse is a platform builtin, abstracted as the parse argument; a
parse returning none is the malformed-JSON case, which is skipped. -/
def processLines {J : Type} (parse : JStr → Option J) : List JStr → List J × Bool
  | [] => ([], false)
  | l :: ls =>
    let line := jsTrim l
    if dataMarker.isPrefixOf line then
      let d := line.drop 6
      if d = doneSentinel then ([], true)
      else
        match parse d with
        | some j => ((processLines parse ls).1.cons j, (processLines parse ls).2)
        | none => processLines parse ls
    else processLines parse ls

/-- The read loop of asyncIteratorFromReader (lines 260 to 286 of the
source): reader chunks arrive already decoded, each is appended to the
carried buffer, complete lines are processed, and the DONE sentinel stops
all further reading.  A buffer remainder left when the reader reports
done is discarded, as in the source. -/
def readLoop {J : Type} (parse : JStr → Option J) : JStr → List JStr → List J
  | _, [] => []
  | buffer, c :: cs =>
    let sp := splitCL (buffer ++ c)
    let pr := processLines parse sp.1
    if pr.2 then pr.1 else pr.1 ++ readLoop parse sp.2 cs

/-- asyncIteratorFromReader (lines 255 to 290 of the source) as a function
from the sequence of decoded reader chunks to the sequence of parsed
values it yields, starting from an empty buffer. -/
def asyncIteratorFromReader {J : Type} (parse : JStr → Option J) (chunks : List JStr) :
    List J :=
  readLoop parse [] chunks

/-- Modelled from the spec: the line-oriented event-stream discipline in
its words: each data line is the marker followed by a JSON chunk or the
DONE sentinel ending the stream; blank lines and non-data lines are
ignored; malformed JSON on a data line is skipped. -/
def specDataLines {J : Type} (parse : JStr → Option J) : List JStr → List J
  | [] => []
  | l :: ls =>
    let line := jsTrim l
    if line.isEmpty then specDataLines parse ls
    else if dataMarker.isPrefixOf line then
      if line.drop 6 = doneSentinel then []
      else
        match parse (line.drop 6) with
        | some j => j :: specDataLines parse ls
        | none => specDataLines parse ls
    else specDataLines parse ls

/-- Modelled from the spec: the whole aggregator wire protocol over the
full byte stream: the parsed values of the newline-terminated lines of
the input, under the per-line discipline, up to the DONE sentinel. -/
def specAggregator {J : Type} (parse : JStr → Option J) (input : JStr) : List J :=
  specDataLines parse (splitCL input).1

/-- Modelled from the spec: JSON.parse, a platform builtin outside the
repository, restricted to the object shape the specified example uses: an
object with the single string field text and no escape sequences.  Any
other input is malformed for this model and yields none. -/
def parseTextObj (s : JStr) : Option JStr :=
  match s with
  | '{' :: '"' :: 't' :: 'e' :: 'x' :: 't' :: '"' :: ':' :: '"' :: rest =>
    match rest.splitOn '"' with
    | [v, tl] => if tl = ['}'] then some v else none
    | _ => none
  | _ => none

theorem splitCL_rest_no_newline (s : JStr) : '\n' ∉ (splitCL s).2 := by
  induction s with
  | nil => simp [splitCL]
  | cons c cs ih =>
    by_cases hc : c = '\n'
    · simpa [splitCL, hc] using ih
    · rcases h : (splitCL cs).1 with _ | ⟨l, ls⟩ <;>
        simp [splitCL, hc, h] at ih ⊢ <;> simp [ih, Ne.symm hc]

theorem splitCL_append (a b : JStr) :
    splitCL (a ++ b) =
      ((splitCL a).1 ++ (splitCL ((splitCL a).2 ++ b)).1,
        (splitCL ((splitCL a).2 ++ b)).2) := by
  induction a with
  | nil => simp [splitCL]
  | cons c cs ih =>
    by_cases hc : c = '\n'
    · simp [splitCL, hc, ih]
    · rcases h : (splitCL cs).1 with _ | ⟨l, ls⟩
      · simp only [List.cons_append, List.append_eq, splitCL, ih, h, if_neg hc,
          List.nil_append]
      · simp [splitCL, ih, h, hc]

theorem splitCL_of_no_newline (s : JStr) (h : '\n' ∉ s) : splitCL s = ([], s) := by
  induction s with
  | nil => rfl
  | cons c cs ih =>
    simp only [List.mem_cons, not_or] at h
    simp [splitCL, ih h.2, Ne.symm h.1]

theorem processLines_append {J : Type} (parse : JStr → Option J) (l1 l2 : List JStr) :
    processLines parse (l1 ++ l2) =
      if (processLines parse l1).2 then processLines parse l1
      else
        ((processLines parse l1).1 ++ (processLines parse l2).1,
          (processLines parse l2).2) := by
  induction l1 with
  | nil => simp [processLines]
  | cons l ls ih =>
    by_cases hd : dataMarker.isPrefixOf (jsTrim l) = true
    · by_cases hdone : (jsTrim l).drop 6 = doneSentinel
      · simp [processLines, hd, hdone]
      · rcases hp : parse ((jsTrim l).drop 6) with _ | j <;>
          simp [processLines, hd, hdone, hp, ih] <;>
          rcases hb : (processLines parse ls).2 <;> simp [hb]
    · have hd2 : dataMarker.isPrefixOf (jsTrim l) = false := Bool.eq_false_iff.mpr hd
      simp [processLines, hd2, ih]

theorem processLines_fst_eq_spec {J : Type} (parse : JStr → Option J) (ls : List JStr) :
    (processLines parse ls).1 = specDataLines parse ls := by
  induction ls with
  | nil => rfl
  | cons l ls ih =>
    by_cases hd : dataMarker.isPrefixOf (jsTrim l) = true
    · have hne : (jsTrim l).isEmpty = false := by
        cases hl : jsTrim l
        · rw [hl] at hd; exact absurd hd (by decide)
        · rfl
      by_cases hdone : (jsTrim l).drop 6 = doneSentinel
      · simp [processLines, specDataLines, hd, hne, hdone]
      · rcases hp : parse ((jsTrim l).drop 6) with _ | j <;>
          simp [processLines, specDataLines, hd, hne, hdone, hp, ih]
    · have hd2 : dataMarker.isPrefixOf (jsTrim l) = false := Bool.eq_false_iff.mpr hd
      rcases he : (jsTrim l).isEmpty <;>
        simp [processLines, specDataLines, hd2, he, ih]

theorem readLoop_eq {J : Type} (parse : JStr → Option J) :
    ∀ (chunks : List JStr) (buffer : JStr), '\n' ∉ buffer →
      readLoop parse buffer chunks =
        (processLines parse (splitCL (buffer ++ chunks.flatten)).1).1 := by
  intro chunks
  induction chunks with
  | nil =>
    intro buffer hb
    simp [readLoop, splitCL_of_no_newline buffer hb, processLines]
  | cons c cs ih =>
    intro buffer hb
    have hassoc : buffer ++ (c :: cs).flatten = (buffer ++ c) ++ cs.flatten := by
      simp [List.flatten_cons]
    rw [hassoc, splitCL_append (buffer ++ c) cs.flatten, readLoop]
    simp only [processLines_append]
    rcases hbit : (processLines parse (splitCL (buffer ++ c)).1).2
    · simp only [hbit, Bool.false_eq_true, if_false]
      rw [ih _ (splitCL_rest_no_newline (buffer ++ c))]
    · simp [hbit]

/-- C6: the aggregator line parser equals, for every parse function and
every chunking of the byte stream, the line-protocol semantics written
from the spec: the parsed values of the newline-terminated data lines up
to the DONE sentinel, with blank lines, non-data lines and malformed data
lines skipped; and on the specified example input it yields the single
object with text a and terminates. -/
theorem aggregatorLineProtocol {J : Type} (parse : JStr → Option J)
    (chunks : List JStr) :
    asyncIteratorFromReader parse chunks = specAggregator parse chunks.flatten ∧
    asyncIteratorFromReader parseTextObj
        [("data: \x7b\"text\":\"a\"\x7d\n\ndata: [DONE]\n").data] =
      [("a").data] := by
  constructor
  · rw [asyncIteratorFromReader, readLoop_eq parse chunks [] (by simp),
      List.nil_append, specAggregator, processLines_fst_eq_spec]
  · decide

/-- The HTTP response handed back by fetch, as far as
makeOpenRouterApiCall inspects it: the ok flag and status of the vendor
response, and the readable body as the sequence of decoded reader chunks
(none embeds a response whose body yields no reader). -/
structure HttpResponse where
  ok : Bool
  status : Nat
  body : Option (List JStr)

/-- Decimal rendering of the status code, as interpolated into the error
message by the template literal at line 178 of the source. -/
def natStr (n : Nat) : JStr := (Nat.repr n).data

/-- The try body of makeOpenRouterApiCall after the fetch resolves (lines
176 to 189 of the source): reject on a non-success status before any
reader or stream is constructed, reject when the body is not readable,
and otherwise return the standardized adapted stream with the model
name.  JSON.parse applied to each wire line is the parse argument. -/
def makeOpenRouterCore (parse : JStr → Option Chunk) (modelName : JStr)
    (resp : HttpResponse) : Except JStr (List Ev × JStr) :=
  if !resp.ok then
    Except.error ((("OpenRouter API call failed with status ").data) ++ natStr resp.status)
  else
    match resp.body with
    | none => Except.error (("Response body is not readable").data)
    | some chunks =>
      Except.ok (standardizeStream (asyncIteratorFromReader parse chunks), modelName)

/-- makeOpenRouterApiCall (lines 149 to 193 of the source) from the fetch
response onward: the catch clause wraps any rejection with the vendor
name. -/
def makeOpenRouterApiCall (parse : JStr → Option Chunk) (modelName : JStr)
    (resp : HttpResponse) : Except JStr (List Ev × JStr) :=
  match makeOpenRouterCore parse modelName resp with
  | Except.ok v => Except.ok v
  | Except.error m => Except.error ((("OpenRouter API Error: ").data) ++ m)

/-- C7: whenever the vendor response has a non-success status, the
aggregator adapter rejects with the vendor-wrapped status error and no
stream value is produced. -/
theorem openRouterNonSuccessRejects (parse : JStr → Option Chunk) (modelName : JStr)
    (resp : HttpResponse) (h : resp.ok = false) :
    makeOpenRouterApiCall parse modelName resp =
      Except.error
        ((("OpenRouter API Error: OpenRouter API call failed with status ").data) ++
          natStr resp.status) := by
  rw [makeOpenRouterApiCall, makeOpenRouterCore, h]
  simp

/-- C7 witness: the rejection at a concrete 500 response whose body would
otherwise be readable. -/
theorem openRouterNonSuccessRejectsWitness :
    makeOpenRouterApiCall (fun _ => none) (("m").data) ⟨false, 500, some []⟩ =
      Except.error
        (("OpenRouter API Error: OpenRouter API call failed with status 500").data) := by
  rw [openRouterNonSuccessRejects (fun _ => none) (("m").data) ⟨false, 500, some []⟩ rfl]
  exact congrArg Except.error (by decide)

/-- One read of the response-body reader: a decoded chunk, or a read that
rejects.  An exhausted read list embeds the reader reporting done. -/
inductive ReadRes
  | chunk (s : JStr)
  | readErr

/-- How an iteration of the adapted stream came to an end. -/
inductive StopCause
  | exhausted
  | doneSentinel
  | errorThrown
  | abandoned

/-- Observable outcome of iterating the adapted stream: events delivered,
whether reader.cancel() ran, and why iteration stopped. -/
structure ReaderOutcome (J : Type) where
  events : List J
  cancelled : Bool
  cause : StopCause

/-- Outcome of working through one batch of complete lines while the
consumer still accepts a bounded number of events. -/
inductive LineStep (J : Type)
  | stopped (evs : List J) (cause : StopCause)
  | cont (evs : List J) (budget : Option Nat)

/-- Per-line handling of asyncIteratorFromReader instrumented with the
consumer: the budget is the number of events the consumer will still
accept before it abandons iteration (none embeds a consumer that never
abandons).  Yielding the last accepted event closes the generator at that
yield, which runs the finally clause of lines 287 to 289 of the
source. -/
def yieldLines {J : Type} (parse : JStr → Option J) :
    List JStr → Option Nat → LineStep J
  | [], b => LineStep.cont [] b
  | l :: ls, b =>
    let line := jsTrim l
    if dataMarker.isPrefixOf line then
      let d := line.drop 6
      if d = doneSentinel then LineStep.stopped [] StopCause.doneSentinel
      else
        match parse d with
        | some j =>
          match b with
          | some 0 => LineStep.stopped [] StopCause.abandoned
          | some 1 => LineStep.stopped [j] StopCause.abandoned
          | some (k+2) =>
            match yieldLines parse ls (some (k+1)) with
            | LineStep.stopped evs cause => LineStep.stopped (j :: evs) cause
            | LineStep.cont evs b2 => LineStep.cont (j :: evs) b2
          | none =>
            match yieldLines parse ls none with
            | LineStep.stopped evs cause => LineStep.stopped (j :: evs) cause
            | LineStep.cont evs b2 => LineStep.cont (j :: evs) b2
        | none => yieldLines parse ls b
    else yieldLines parse ls b

/-- The read loop of asyncIteratorFromReader with its try/finally
desugared: every exit path of the generator body — the reader reporting
done, the DONE sentinel, a read that rejects, and the consumer abandoning
iteration — performs the reader.cancel() of the finally clause before the
outcome is delivered.  Iteration is assumed started (an iterator whose
consumer never requests anything never runs the generator body). -/
def readerRun {J : Type} (parse : JStr → Option J) :
    JStr → List ReadRes → Option Nat → ReaderOutcome J
  | _, _, some 0 => ⟨[], true, StopCause.abandoned⟩
  | _, [], _ => ⟨[], true, StopCause.exhausted⟩
  | _, ReadRes.readErr :: _, _ => ⟨[], true, StopCause.errorThrown⟩
  | buffer, ReadRes.chunk s :: rest, b =>
    let sp := splitCL (buffer ++ s)
    match yieldLines parse sp.1 b with
    | LineStep.stopped evs cause => ⟨evs, true, cause⟩
    | LineStep.cont evs b2 =>
      let o := readerRun parse sp.2 rest b2
      ⟨evs ++ o.events, o.cancelled, o.cause⟩

/-- C8: on every termination path of the adapted stream iteration —
reader exhaustion, the DONE sentinel, a read error, or the consumer
abandoning iteration after any number of events — the response-body
reader is cancelled. -/
theorem readerAlwaysCancelled {J : Type} (parse : JStr → Option J)
    (reads : List ReadRes) (buffer : JStr) (budget : Option Nat) :
    (readerRun parse buffer reads budget).cancelled = true := by
  induction reads generalizing buffer budget with
  | nil =>
    rcases budget with _ | ⟨_ | k⟩ <;> rfl
  | cons r rest ih =>
    rcases budget with _ | ⟨_ | k⟩ <;> rcases r with s | _ <;>
      simp only [readerRun] <;>
      first
        | rfl
        | (rcases hy : yieldLines parse (splitCL (buffer ++ s)).1 _ with ⟨evs, cause⟩ | ⟨evs, b2⟩ <;>
            simp [hy, ih])

/-- An image reference in a chat message: MIME type and URL. -/
structure ImageRef where
  media_type : JStr
  url : JStr
deriving DecidableEq

/-- The image field of a chat message, which JavaScript distinguishes
three ways: the literal null, absent (undefined), or an array of image
references. -/
inductive ImageField
  | null
  | undef
  | arr (l : List ImageRef)
deriving DecidableEq

/-- A caller-supplied chat message. -/
structure ChatMsg where
  role : JStr
  content : JStr
  image : ImageField
deriving DecidableEq

/-- A block of the array-shaped Anthropic message content. -/
inductive ClaudeBlock
  | image (media_type : JStr) (data : JStr)
  | text (t : JStr)
deriving DecidableEq

/-- Anthropic message content: either the plain string shape produced
when the image field is null, or the array-of-blocks shape. -/
inductive ClaudeContent
  | str (s : JStr)
  | blocks (bs : List ClaudeBlock)
deriving DecidableEq

/-- A serialized Anthropic message. -/
structure ClaudeMessage where
  role : JStr
  content : ClaudeContent
deriving DecidableEq

/-- The error thrown when request construction evaluates msg.image.map on
an undefined value. -/
inductive JsError
  | undefMapTypeError
deriving DecidableEq

/-- The wrapped rejection of the adapter (line 53 of the source): the
vendor name prefixed onto the underlying failure. -/
inductive ApiError
  | claude (e : JsError)
deriving DecidableEq

/-- Serialization of one chat message at lines 12 to 28 of the source:
content is the plain string exactly when msg.image is strictly not null
fails, i.e. when the field is the literal null; an array builds the
image blocks (each image fetched and base64-encoded by the external
convertToBase64, abstracted as the conv argument) followed by the text
block; an undefined field reaches msg.image.map, which throws. -/
def serializeClaudeMsg (conv : JStr → JStr) (m : ChatMsg) :
    Except JsError ClaudeMessage :=
  match m.image with
  | ImageField.null => Except.ok ⟨m.role, ClaudeContent.str m.content⟩
  | ImageField.undef => Except.error JsError.undefMapTypeError
  | ImageField.arr l =>
    Except.ok
      ⟨m.role,
        ClaudeContent.blocks
          ((l.map fun img => ClaudeBlock.image img.media_type (conv img.url)) ++
            [ClaudeBlock.text m.content])⟩

/-- makeClaudeApiCall (lines 6 to 55 of the source) up to the serialized
message list: a rejection of any message serialization rejects the whole
Promise.all, and the catch clause wraps it as a Claude API Error.  The
vendor SDK call that consumes the messages is external and outside the
model. -/
def makeClaudeApiCall (conv : JStr → JStr) (chatContext : List ChatMsg) :
    Except ApiError (List ClaudeMessage) :=
  match chatContext.mapM (serializeClaudeMsg conv) with
  | Except.ok ms => Except.ok ms
  | Except.error e => Except.error (ApiError.claude e)

/-- C9: a message is serialized to plain string content exactly when its
image field is the literal null, and any chat context containing a
message whose image field is absent makes the whole call reject with the
wrapped Claude API Error, because request construction evaluates
msg.image.map on undefined. -/
theorem claudeNullVersusUndefinedImage (conv : JStr → JStr) (ctx : List ChatMsg) :
    ((∃ m ∈ ctx, m.image = ImageField.undef) →
      makeClaudeApiCall conv ctx = Except.error (ApiError.claude JsError.undefMapTypeError)) ∧
    (∀ m r, serializeClaudeMsg conv m = Except.ok r →
      ((∃ s, r.content = ClaudeContent.str s) ↔ m.image = ImageField.null)) := by
  constructor
  · intro hex
    have hfail : ∀ ms : List ChatMsg, (∃ m ∈ ms, m.image = ImageField.undef) →
        ms.mapM (serializeClaudeMsg conv) = Except.error JsError.undefMapTypeError := by
      intro ms
      induction ms with
      | nil => rintro ⟨m, hm, _⟩; cases hm
      | cons a as ih =>
        rintro ⟨m, hm, hu⟩
        rcases List.mem_cons.mp hm with rfl | hmem
        · rw [List.mapM_cons, serializeClaudeMsg, hu]
          rfl
        · rw [List.mapM_cons]
          rcases ha : serializeClaudeMsg conv a with e | v
          · cases e; rfl
          · rw [ih ⟨m, hmem, hu⟩]
            rfl
    rw [makeClaudeApiCall, hfail ctx hex]
  · intro m r hr
    rcases hm : m.image with _ | _ | l <;> rw [serializeClaudeMsg, hm] at hr
    · cases hr
      simp
    · cases hr
    · cases hr
      simp [hm]

/-- C9 witness: a chat context whose single message leaves the image
field absent makes the call reject with the wrapped Claude error. -/
theorem claudeNullVersusUndefinedImageWitness :
    makeClaudeApiCall (fun u => u)
        [⟨("user").data, ("hi").data, ImageField.undef⟩] =
      Except.error (ApiError.claude JsError.undefMapTypeError) :=
  (claudeNullVersusUndefinedImage (fun u => u)
      [⟨("user").data, ("hi").data, ImageField.undef⟩]).1
    ⟨⟨("user").data, ("hi").data, ImageField.undef⟩, by simp, rfl⟩

/-- One part of the array-shaped OpenAI-style message content built by
formatMessages. -/
inductive FPart
  | imageUrl (url : JStr) (detail : JStr)
  | text (t : JStr)
deriving DecidableEq

/-- OpenAI-style message content: a plain string or an array of parts. -/
inductive FContent
  | str (s : JStr)
  | parts (ps : List FPart)
deriving DecidableEq

/-- A formatted OpenAI-style message. -/
structure FMsg where
  role : JStr
  content : FContent
deriving DecidableEq

/-- A labeled system-message block, joined by formatMessages with
blank-line separators. -/
structure SysBlock where
  text : JStr
deriving DecidableEq

/-- The truthiness test msg.image and msg.image.length greater than zero
used at lines 66 and 298 of the source: null and undefined are falsy and
short-circuit, an array passes when non-empty. -/
def imageTruthyNonempty : ImageField → Bool
  | ImageField.arr l => !l.isEmpty
  | _ => false

/-- The image list of a message whose image field passed the truthiness
test. -/
def imageList : ImageField → List ImageRef
  | ImageField.arr l => l
  | _ => []

/-- formatMessages (lines 292 to 324 of the source): the joined system
message first, then each chat message either as an array of image-url
parts followed by the text part, or as plain string content. -/
def formatMessages (chatContext : List ChatMsg) (systemMessage : List SysBlock) :
    List FMsg :=
  ⟨("system").data, FContent.str (List.intercalate (("\n\n").data)
      (systemMessage.map fun msg => msg.text))⟩ ::
  chatContext.map fun msg =>
    if imageTruthyNonempty msg.image then
      ⟨msg.role, FContent.parts
        (((imageList msg.image).map fun img =>
            FPart.imageUrl img.url (("high").data)) ++
          [FPart.text msg.content])⟩
    else ⟨msg.role, FContent.str msg.content⟩

/-- The vendor request body built by makeGrokApiCall: the only fields the
source passes to the completions call are the model name, the formatted
messages and the stream flag. -/
structure GrokRequest where
  model : JStr
  messages : List FMsg
  stream : Bool
deriving DecidableEq

/-- makeGrokApiCall (lines 57 to 80 of the source) up to the vendor
request it issues: the signature carries apiKey, model, maxTokens and
temperature as the source does, the model name is chosen by the presence
of a non-empty image list anywhere in the chat context, and the request
carries only the model name, messages and stream flag. -/
def makeGrokApiCall (apiKey : JStr) (chatContext : List ChatMsg)
    (systemMessage : List SysBlock) (model : Int) (maxTokens : Int)
    (temperature : Int) : GrokRequest :=
  let messages := formatMessages chatContext systemMessage
  let hasImage := chatContext.any fun msg => imageTruthyNonempty msg.image
  let modelName :=
    if hasImage then ("grok-2-vision-1212").data else ("grok-2-1212").data
  ⟨modelName, messages, true⟩

/-- C10: two Grok invocations agreeing on apiKey, chat context and system
message and differing arbitrarily in model, maxTokens and temperature
build the identical vendor request; the request consists only of the
model name, messages and stream flag, and the model name depends only on
whether some message carries a non-empty image list. -/
theorem grokRequestIgnoresTuning (apiKey : JStr) (chatContext : List ChatMsg)
    (systemMessage : List SysBlock) (m1 m2 mt1 mt2 t1 t2 : Int) :
    makeGrokApiCall apiKey chatContext systemMessage m1 mt1 t1 =
      makeGrokApiCall apiKey chatContext systemMessage m2 mt2 t2 ∧
    (makeGrokApiCall apiKey chatContext systemMessage m1 mt1 t1).model =
      (if chatContext.any fun msg => imageTruthyNonempty msg.image then
        ("grok-2-vision-1212").data
      else ("grok-2-1212").data) ∧
    (makeGrokApiCall apiKey chatContext systemMessage m1 mt1 t1).messages =
      formatMessages chatContext systemMessage ∧
    (makeGrokApiCall apiKey chatContext systemMessage m1 mt1 t1).stream = true :=
  ⟨rfl, rfl, rfl, rfl⟩
